import Mathlib

/-!
Verification development for the CollabNet profile-aggregation and scoring
engine.  The repository tree contains the React frontend
(`frontend/src/...`) and a README describing the Flask backend
(`backend/app.py`, `backend/openalex_offline.py`); the backend sources are
not part of the tree, so the scoring engine is modelled from the
specification, while the frontend aggregations are translated directly
from the JavaScript sources.
-/

namespace Collabnet

/-! ## Sparse concept vectors and cosine similarity -/

/-- Modelled from the spec (§3, `concept_counts`): a sparse concept-weight
vector over the concept-id space, given as a function with explicit finite
support that vanishes outside the support.  The realising backend file
`backend/app.py` is not in the tree. -/
structure SparseVec where
  support : Finset String
  val : String → ℚ
  val_zero : ∀ k, k ∉ support → val k = 0

/-- Modelled from the spec (§4.4 rule 1): dot product of two sparse
concept vectors over the concept-id space. -/
def dot (a b : SparseVec) : ℚ :=
  ∑ k ∈ a.support ∪ b.support, a.val k * b.val k

/-- Modelled from the spec (§4.4 rule 1): squared Euclidean norm of a
sparse concept vector. -/
def normSq (a : SparseVec) : ℚ :=
  ∑ k ∈ a.support, a.val k ^ 2

/-- Modelled from the spec (§4.4 rule 1): cosine similarity
`dot / (‖A‖·‖B‖)`, defined as `0` when either vector is all-zero. -/
noncomputable def cosine (a b : SparseVec) : ℝ :=
  if normSq a = 0 ∨ normSq b = 0 then 0
  else (dot a b : ℝ) / (Real.sqrt (normSq a) * Real.sqrt (normSq b))

/-- Modelled from the spec (§4.4 rule 1): clamp a similarity to `[0,1]`. -/
noncomputable def clamp01 (x : ℝ) : ℝ := max 0 (min 1 x)

/-- Modelled from the spec (§4.4 rule 1): the topic-similarity sub-score,
`round(clamp(similarity,0,1)·100)`. -/
noncomputable def topicScore (a b : SparseVec) : ℤ :=
  round (clamp01 (cosine a b) * 100)

/-! ## Co-author graph resolver (bounded breadth-first search) -/

/-- Modelled from the spec (§4.3): merge two co-author adjacency maps into
a single adjacency — an edge present in either graph is present in the
merge. -/
def mergeAdj (ga gb : String → List String) : String → List String :=
  fun x => ga x ++ gb x

/-- Modelled from the spec (§4.3): the BFS ball — all nodes reachable from
`origin` within `n` hops, computed by repeated frontier expansion. -/
def ball (adj : String → List String) (origin : String) : ℕ → List String
  | 0 => [origin]
  | n + 1 =>
    let b := ball adj origin n
    (b ++ b.flatMap adj).dedup

/-- Modelled from the spec (§4.3): `shortest_distance` — the least depth
`k ≤ maxDepth` at which the target enters the BFS ball, or `none` when the
target is unreached within `maxDepth` hops. -/
def shortestDistance (adj : String → List String) (origin target : String)
    (maxDepth : ℕ) : Option ℕ :=
  (List.range (maxDepth + 1)).find? fun k => decide (target ∈ ball adj origin k)

/-- `ReachesIn adj x y n`: there is a walk of exactly `n` hops from `x` to
`y` in the adjacency `adj`. -/
inductive ReachesIn (adj : String → List String) : String → String → ℕ → Prop
  | refl (x : String) : ReachesIn adj x x 0
  | step {x y z : String} {n : ℕ} :
      ReachesIn adj x y n → z ∈ adj y → ReachesIn adj x z (n + 1)

/-- Modelled from the spec (§4.3): map a BFS distance to the co-author
sub-score — `0 or 1 → 100`, `2 → 80`, `3 → 55`, `4 → 35`, `≥5 → 15`,
unreached → `0`. -/
def distScore : Option ℕ → ℕ
  | none => 0
  | some n =>
    if n ≤ 1 then 100
    else if n = 2 then 80
    else if n = 3 then 55
    else if n = 4 then 35
    else 15

/-! ## Institution proximity, recency alignment, trend growth -/

/-- Modelled from the spec (§3): normalized institution record
`{id, display_name, type, country_code}`; the optional fields default to
`none` when absent. -/
structure Institution where
  id : String
  display_name : String
  itype : Option String
  country_code : Option String

/-- Both optional fields present and equal. -/
def sameOpt (x y : Option String) : Bool :=
  match x, y with
  | some a, some b => a = b
  | _, _ => false

/-- Modelled from the spec (§4.4 rule 3): institution proximity, evaluated
as the first matching rule — same id → 100; else same country code (both
present) → 80; else same type (both present) → 60; else both present → 40;
else (either missing) → 0. -/
def instProximity : Option Institution → Option Institution → ℕ
  | some a, some b =>
    if a.id = b.id then 100
    else if sameOpt a.country_code b.country_code then 80
    else if sameOpt a.itype b.itype then 60
    else 40
  | _, _ => 0

/-- Modelled from the spec (§4.4 rule 4): recency alignment,
`max(0, 100 − 12.5·|median_year_user − median_year_target|)`, and `0`
when either median is undefined. -/
def recencyAlign : Option ℤ → Option ℤ → ℚ
  | some yu, some yt => max 0 (100 - 12.5 * |(yu : ℚ) - (yt : ℚ)|)
  | _, _ => 0

/-- Modelled from the spec (§4.2): publication growth of a trend
candidate, `recent_count − previous_count`. -/
def growth (recent previous : ℕ) : ℤ := (recent : ℤ) - (previous : ℤ)

/-- Modelled from the spec (§4.2): growth rate — divide the growth by
`previous_count` when positive, else by `recent_count`, and define the
rate as `0` when `recent_count = 0` to avoid a zero divisor. -/
def growthRate (recent previous : ℕ) : ℚ :=
  if recent = 0 then 0
  else ((recent : ℚ) - (previous : ℚ)) /
    (if 0 < previous then (previous : ℚ) else (recent : ℚ))

/-! ## Research profiles and the compatibility scorer -/

/-- Modelled from the spec (§3): immutable per-work summary. -/
structure WorkSummary where
  id : String
  title : String
  year : ℤ
  concept_ids : List String
  author_ids : List String
  citation_count : ℕ

/-- Modelled from the spec (§3): per-author normalized research profile
(the fields consumed by the compatibility scorer). -/
structure ResearchProfile where
  author_id : String
  display_name : String
  concept_counts : SparseVec
  concept_names : String → Option String
  coauthors : List (String × String)
  coauthor_graph : String → List String
  works : List WorkSummary
  median_year : Option ℤ
  institution : Option Institution

/-- Modelled from the spec (§4.4 rule 2): co-author distance sub-score —
BFS over the merged co-author graphs from the target id to the user id,
bounded to depth 6, mapped through the distance-score table. -/
def coauthorScore (u t : ResearchProfile) : ℕ :=
  distScore (shortestDistance (mergeAdj u.coauthor_graph t.coauthor_graph)
    t.author_id u.author_id 6)

/-- Modelled from the spec (§3): the four sub-scores plus the rounded
overall score. -/
structure CompatibilityBreakdown where
  overall : ℤ
  topic_similarity : ℤ
  coauthor_distance : ℕ
  institution_proximity : ℕ
  recency_alignment : ℚ

/-- Modelled from the spec (§4.4 rule 5): overall compatibility score,
`round(0.40·topic + 0.30·coauthor + 0.20·institution + 0.10·recency)`,
clamped to `[0, 100]`. -/
noncomputable def overallScore (u t : ResearchProfile) : ℤ :=
  min 100 (max 0 (round (
    0.40 * (topicScore u.concept_counts t.concept_counts : ℚ) +
    0.30 * (coauthorScore u t : ℚ) +
    0.20 * (instProximity u.institution t.institution : ℚ) +
    0.10 * recencyAlign u.median_year t.median_year)))

/-- Modelled from the spec (§4.4): the breakdown returned by
`compute_compatibility`. -/
noncomputable def computeBreakdown (u t : ResearchProfile) :
    CompatibilityBreakdown where
  overall := overallScore u t
  topic_similarity := topicScore u.concept_counts t.concept_counts
  coauthor_distance := coauthorScore u t
  institution_proximity := instProximity u.institution t.institution
  recency_alignment := recencyAlign u.median_year t.median_year

/-! ## Record source, fallback resolver and profile builder -/

/-- Modelled from the spec (§6): raw work record from the Record Source —
year, per-concept `(id, display_name, score)` entries, and per-author
`(id, display_name)` entries. -/
structure WorkRecord where
  id : String
  title : String
  year : ℤ
  concepts : List (String × String × ℚ)
  author_ids : List (String × String)
  citation_count : ℕ

/-- Modelled from the spec (§4.1/§6): author summary record. -/
structure AuthorSummary where
  id : String
  display_name : String
  works_count : ℕ
  cited_by_count : ℕ
  last_known_institution : Option Institution

/-- Modelled from the spec (§6): the Record Source calls used by the
compatibility flow; `none` models the `Unavailable` signal. -/
structure RecordSource where
  authorSummary : String → Option AuthorSummary
  authorWorks : String → Option (List WorkRecord)

/-- Modelled from the spec (§4.5/§9): the static offline corpus, shaped
like live records and injected into the Fallback Resolver at start-up. -/
structure OfflineCorpus where
  authorSummary : String → AuthorSummary
  authorWorks : String → List WorkRecord

/-- Modelled from the spec (§4.5): Fallback Resolver for author summaries —
the live record when the call succeeds, else the offline substitute; a
total function, it never raises. -/
def resolveAuthorSummary (corpus : OfflineCorpus) (src : RecordSource)
    (id : String) : AuthorSummary :=
  (src.authorSummary id).getD (corpus.authorSummary id)

/-- Modelled from the spec (§4.5): Fallback Resolver for works lists — the
live list when the call succeeds, else the offline substitute; the result
is always a list, an empty sequence at worst. -/
def resolveAuthorWorks (corpus : OfflineCorpus) (src : RecordSource)
    (id : String) : List WorkRecord :=
  (src.authorWorks id).getD (corpus.authorWorks id)

/-- Concept ids listed on one work record. -/
def workConceptIds (w : WorkRecord) : List String := w.concepts.map (·.1)

/-- Modelled from the spec (§4.1): the accumulated relevance score of
concept `k` over a list of work records. -/
def conceptTotal (ws : List WorkRecord) (k : String) : ℚ :=
  (((ws.flatMap (fun w => w.concepts)).filter (fun c => c.1 = k)).map
    (fun c => c.2.2)).sum

/-- Modelled from the spec (§4.1): `concept_counts` built from the work
records — each work contributes each listed concept's relevance score. -/
def buildConceptVec (ws : List WorkRecord) : SparseVec where
  support := (ws.flatMap workConceptIds).toFinset
  val := conceptTotal ws
  val_zero := by
    intro k hk
    have hnil : (ws.flatMap (fun w => w.concepts)).filter (fun c => c.1 = k)
        = [] := by
      rw [List.filter_eq_nil_iff]
      intro c hc
      simp only [List.mem_flatMap] at hc
      obtain ⟨w, hw, hcw⟩ := hc
      simp only [List.mem_toFinset, List.mem_flatMap] at hk
      intro hck
      exact hk ⟨w, hw, by
        simp only [workConceptIds, List.mem_map]
        exact ⟨c, hcw, by simpa using hck⟩⟩
    simp [conceptTotal, hnil]

/-- Modelled from the spec (§4.1): collaborator mapping — every other
listed author (id, display name) across the works. -/
def coauthorList (selfId : String) (ws : List WorkRecord) :
    List (String × String) :=
  ((ws.flatMap (fun w => w.author_ids)).filter
    (fun p => decide (p.1 ≠ selfId))).dedup

/-- Modelled from the spec (§4.1/§4.3): co-author adjacency built from the
works — two authors are adjacent when they are listed on a common work. -/
def coauthorAdj (ws : List WorkRecord) : String → List String :=
  fun x =>
    ((ws.filter (fun w => decide (x ∈ w.author_ids.map (·.1)))).flatMap
      (fun w => w.author_ids.map (·.1))).filter (fun y => decide (y ≠ x))

/-- Modelled from the spec (§4.1): median of the work years, `none` when
there are no works; with an even count the two middle values are averaged
and rounded to the nearest integer (ties round half up). -/
def medianYear (ws : List WorkRecord) : Option ℤ :=
  let ys := (ws.map (·.year)).mergeSort (fun a b => decide (a ≤ b))
  if ys.length = 0 then none
  else if ys.length % 2 = 1 then some (ys.getD (ys.length / 2) 0)
  else some (round (((ys.getD (ys.length / 2 - 1) 0 : ℚ) +
    (ys.getD (ys.length / 2) 0 : ℚ)) / 2))

/-- Modelled from the spec (§4.1): Profile Builder — aggregate an author
summary and the author's work records into a `ResearchProfile`. -/
def buildProfile (s : AuthorSummary) (ws : List WorkRecord) :
    ResearchProfile where
  author_id := s.id
  display_name := s.display_name
  concept_counts := buildConceptVec ws
  concept_names := fun k =>
    ((ws.flatMap (fun w => w.concepts)).find? (fun c => c.1 = k)).map
      (fun c => c.2.1)
  coauthors := coauthorList s.id ws
  coauthor_graph := coauthorAdj ws
  works := ws.map fun w =>
    ⟨w.id, w.title, w.year, w.concepts.map (·.1), w.author_ids.map (·.1),
      w.citation_count⟩
  median_year := medianYear ws
  institution := s.last_known_institution

/-- Modelled from the spec (§3/§4.4): human-readable evidence lists; every
field is a sequence, an empty one at worst. -/
structure Evidence where
  overlapping_concepts : List String
  shared_coauthors : List String
  aligned_publications : List (String × ℤ)

/-- Overlapping concept ids of two sparse vectors, in ascending order. -/
def overlapIds (a b : SparseVec) : List String :=
  (a.support ∩ b.support).sort (· ≤ ·)

/-- Modelled from the spec (§4.4 rule 1): evidence — the five overlapping
concepts with the highest `min(weight_user, weight_target)`. -/
def overlappingConcepts (a b : SparseVec) : List String :=
  ((overlapIds a b).mergeSort (fun x y =>
    decide (min (a.val y) (b.val y) ≤ min (a.val x) (b.val x)))).take 5

/-- Modelled from the spec (§4.4 rule 2): evidence — up to five names
appearing in both `coauthors` mappings. -/
def sharedCoauthors (u t : ResearchProfile) : List String :=
  ((u.coauthors.filter (fun p =>
    decide (p.1 ∈ t.coauthors.map (·.1)))).map (·.2)).take 5

/-- Modelled from the spec (§4.4 rule 6): aligned publications — the
target's works whose concepts meet the top-10 overlapping concept ids (by
combined weight), newest first, up to five `(title, year)` entries. -/
def alignedPublications (u t : ResearchProfile) : List (String × ℤ) :=
  let a := u.concept_counts
  let b := t.concept_counts
  let top := ((overlapIds a b).mergeSort (fun x y =>
    decide (a.val y + b.val y ≤ a.val x + b.val x))).take 10
  (((t.works.filter (fun w =>
      decide (∃ c ∈ w.concept_ids, c ∈ top))).mergeSort (fun w1 w2 =>
      decide (w2.year ≤ w1.year))).map (fun w => (w.title, w.year))).take 5

/-- Modelled from the spec (§4.4): `score(profile_user, profile_target)` —
the breakdown together with the evidence. -/
noncomputable def computeCompatibility (u t : ResearchProfile) :
    CompatibilityBreakdown × Evidence :=
  (computeBreakdown u t,
    ⟨overlappingConcepts u.concept_counts t.concept_counts,
      sharedCoauthors u t, alignedPublications u t⟩)

/-- Modelled from the spec (§4.4/§4.5): a full compatibility computation —
resolve both authors' summaries and works through the Fallback Resolver,
build both profiles, then score them. -/
noncomputable def computeMatch (corpus : OfflineCorpus) (src : RecordSource)
    (userId targetId : String) : CompatibilityBreakdown × Evidence :=
  computeCompatibility
    (buildProfile (resolveAuthorSummary corpus src userId)
      (resolveAuthorWorks corpus src userId))
    (buildProfile (resolveAuthorSummary corpus src targetId)
      (resolveAuthorWorks corpus src targetId))

/-- Modelled from the spec (§8): the Record Source that reports
`Unavailable` for every call. -/
def allUnavailable : RecordSource where
  authorSummary := fun _ => none
  authorWorks := fun _ => none

/-! ## Frontend: Dashboard top-institutions aggregation
(`frontend/src/pages/Dashboard.jsx`, `fetchInstitutions`, lines 72–98) -/

/-- An institution record as consumed by `fetchInstitutions`: the
`display_name` and `works_count` fields may be absent. -/
structure InstRecord where
  display_name : Option String
  works_count : Option ℕ

/-- One `/api/institutions/<topic>` response: the HTTP `ok` flag and the
`institutions` array (`payload.institutions || []`). -/
structure InstResponse where
  ok : Bool
  institutions : List InstRecord

/-- The `allInst[name]` update of `fetchInstitutions`: add `c` to the entry
for `name`, appending a new entry when the key is absent (JS object
insertion order).  `if (!allInst[name])` also fires when the stored count
is `0`, in which case assigning `c` agrees with adding it. -/
def bump : List (String × ℕ) → String → ℕ → List (String × ℕ)
  | [], name, c => [(name, c)]
  | (k, v) :: rest, name, c =>
    if k = name then (k, v + c) :: rest else (k, v) :: bump rest name c

/-- Processing of one institution record: skip when `display_name` is
absent or empty (JS falsy test `if (!name) return`), else accumulate
`inst.works_count || 0`. -/
def instStep (acc : List (String × ℕ)) (i : InstRecord) :
    List (String × ℕ) :=
  match i.display_name with
  | none => acc
  | some name =>
    if name = "" then acc else bump acc name (i.works_count.getD 0)

/-- The `allInst` accumulator of `fetchInstitutions` after all responses
have been processed: responses with `!res.ok` are skipped (`continue`),
the records of the remaining ones are folded through `instStep`. -/
def allInst (rs : List InstResponse) : List (String × ℕ) :=
  rs.foldl
    (fun acc res => if res.ok then res.institutions.foldl instStep acc else acc)
    []

/-- The `fetchInstitutions` aggregation: accumulate per-name counts over
the records of the `ok` responses, then sort descending by count
(`.sort((a, b) => b.count - a.count)`) and keep the first five
(`.slice(0, 5)`). -/
def fetchInstitutionsTop (rs : List InstResponse) : List (String × ℕ) :=
  ((allInst rs).mergeSort (fun a b => decide (b.2 ≤ a.2))).take 5

/-- The contribution of one record to the aggregated count of `name`. -/
def recContrib (i : InstRecord) (name : String) : ℕ :=
  if i.display_name = some name then i.works_count.getD 0 else 0

/-- The total `works_count` (a missing count taken as `0`) over all
records of the `ok` responses whose `display_name` equals `name`. -/
def totalCount (rs : List InstResponse) (name : String) : ℕ :=
  ((((rs.filter (·.ok)).flatMap (·.institutions)).filter
    (fun i => decide (i.display_name = some name))).map
    (fun i => i.works_count.getD 0)).sum

/-- The aggregated count an association list assigns to `name` (sum over
all entries with that key; for a list with unique keys this is the stored
value). -/
def acount (l : List (String × ℕ)) (name : String) : ℕ :=
  ((l.filter (fun p => decide (p.1 = name))).map (·.2)).sum

/-! ## Frontend: Compatibility page gauge
(`frontend/src/pages/Compatibility.jsx`, `gaugeData`, lines 31–44) -/

/-- The `breakdown` payload as read by the Compatibility page; every field
may be `null`/absent. -/
structure BreakdownPayload where
  overall : Option ℤ
  topic_similarity : Option ℤ
  coauthor_distance : Option ℤ
  institution_proximity : Option ℤ
  recency_alignment : Option ℤ

/-- The navigation state passed to `/compatibility` (`state` itself may be
absent, and `state.breakdown` may be `null`). -/
structure NavState where
  targetName : Option String
  breakdown : Option BreakdownPayload
  error : Option String

/-- `const overall = breakdown?.overall || 0` (Compatibility.jsx line 32):
the optional chain collapses a missing state, a missing breakdown, a
`null` overall and a `0` overall all to `0`. -/
def gaugeOverall (state : Option NavState) : ℤ :=
  match state with
  | none => 0
  | some st =>
    match st.breakdown with
    | none => 0
    | some b =>
      match b.overall with
      | none => 0
      | some v => if v = 0 then 0 else v

/-- The two dataset values of the gauge doughnut,
`data: [overall, 100 - overall]` (Compatibility.jsx line 37). -/
def gaugeData (state : Option NavState) : List ℤ :=
  [gaugeOverall state, 100 - gaugeOverall state]

/-! ## Concrete instances for the spec §8 scenarios -/

/-- The scenario user vector `{ML: 10, CV: 5}` (spec §8). -/
def vML_CV : SparseVec where
  support := {"ML", "CV"}
  val := fun k => if k = "ML" then 10 else if k = "CV" then 5 else 0
  val_zero := by
    intro k hk
    simp only [Finset.mem_insert, Finset.mem_singleton, not_or] at hk
    simp [hk.1, hk.2]

/-- The scenario target vector `{ML: 8, NLP: 4}` (spec §8). -/
def vML_NLP : SparseVec where
  support := {"ML", "NLP"}
  val := fun k => if k = "ML" then 8 else if k = "NLP" then 4 else 0
  val_zero := by
    intro k hk
    simp only [Finset.mem_insert, Finset.mem_singleton, not_or] at hk
    simp [hk.1, hk.2]

/-- A two-author co-author graph with the single edge `a — b`. -/
def gAB : String → List String := fun x =>
  if x = "a" then ["b"] else if x = "b" then ["a"] else []

/-- The empty co-author graph. -/
def gEmpty : String → List String := fun _ => []

/-- A sample institution. -/
def instA : Institution := ⟨"I1", "Uni A", some "education", some "US"⟩

/-- A different institution in the same country. -/
def instB : Institution := ⟨"I2", "Uni B", some "education", some "US"⟩

/-- A trivial offline corpus: an empty offline profile for every id. -/
def corpus0 : OfflineCorpus where
  authorSummary := fun id => ⟨id, "Offline Author", 0, 0, none⟩
  authorWorks := fun _ => []

/-- A Record Source whose calls all succeed. -/
def srcLive : RecordSource where
  authorSummary := fun id => some ⟨id, "Live Author", 1, 2, none⟩
  authorWorks := fun _ => some []

/-! ## Claim theorems -/

/-! ## Lemmas and claim theorems -/

theorem dot_comm (a b : SparseVec) : dot a b = dot b a := by
  unfold dot
  rw [Finset.union_comm]
  exact Finset.sum_congr rfl fun k _ => mul_comm _ _

theorem dot_self (a : SparseVec) : dot a a = normSq a := by
  unfold dot normSq
  rw [Finset.union_self]
  exact Finset.sum_congr rfl fun k _ => (sq (a.val k)).symm

theorem normSq_nonneg (a : SparseVec) : 0 ≤ normSq a :=
  Finset.sum_nonneg fun k _ => sq_nonneg (a.val k)

theorem normSq_eq_zero_iff (a : SparseVec) :
    normSq a = 0 ↔ ∀ k, a.val k = 0 := by
  constructor
  · intro h k
    by_cases hk : k ∈ a.support
    · have hsq := (Finset.sum_eq_zero_iff_of_nonneg
        (fun j _ => sq_nonneg (a.val j))).mp h k hk
      exact pow_eq_zero_iff (two_ne_zero) |>.mp hsq
    · exact a.val_zero k hk
  · intro h
    unfold normSq
    exact Finset.sum_eq_zero fun k _ => by rw [h k]; ring

theorem cosine_comm (a b : SparseVec) : cosine a b = cosine b a := by
  unfold cosine
  by_cases ha : normSq a = 0 <;> by_cases hb : normSq b = 0 <;>
    simp [ha, hb, dot_comm a b, mul_comm]

theorem cosine_self (a : SparseVec) (h : normSq a ≠ 0) : cosine a a = 1 := by
  unfold cosine
  rw [if_neg (by tauto), dot_self,
    Real.mul_self_sqrt (by exact_mod_cast normSq_nonneg a)]
  exact div_self (by exact_mod_cast h)

theorem cosine_zero_of_allZero (a b : SparseVec)
    (h : (∀ k, a.val k = 0) ∨ ∀ k, b.val k = 0) : cosine a b = 0 := by
  unfold cosine
  rcases h with h | h
  · rw [if_pos (Or.inl ((normSq_eq_zero_iff a).mpr h))]
  · rw [if_pos (Or.inr ((normSq_eq_zero_iff b).mpr h))]

theorem clamp01_mem (x : ℝ) : 0 ≤ clamp01 x ∧ clamp01 x ≤ 1 :=
  ⟨le_max_left 0 _, max_le zero_le_one (min_le_left 1 x)⟩

theorem round_le_round {α : Type} [LinearOrderedField α] [FloorRing α]
    {x y : α} (h : x ≤ y) : round x ≤ round y := by
  rw [round_eq, round_eq]
  exact Int.floor_mono (by linarith)

theorem topicScore_mem (a b : SparseVec) :
    0 ≤ topicScore a b ∧ topicScore a b ≤ 100 := by
  obtain ⟨h0, h1⟩ := clamp01_mem (cosine a b)
  constructor
  · have := round_le_round (mul_nonneg h0 (by norm_num : (0:ℝ) ≤ 100))
    rwa [round_zero] at this
  · have hle : clamp01 (cosine a b) * 100 ≤ (100 : ℝ) := by nlinarith
    have := round_le_round hle
    rwa [show ((100 : ℝ)) = ((100 : ℤ) : ℝ) by norm_num, round_intCast] at this

theorem reachesIn_zero {adj : String → List String} {x y : String}
    (h : ReachesIn adj x y 0) : x = y := by
  cases h
  rfl

theorem mem_ball_iff (adj : String → List String) (o : String) :
    ∀ (k : ℕ) (t : String),
      t ∈ ball adj o k ↔ ∃ j ≤ k, ReachesIn adj o t j := by
  intro k
  induction k with
  | zero =>
    intro t
    simp only [ball, List.mem_singleton]
    constructor
    · rintro rfl
      exact ⟨0, le_refl 0, ReachesIn.refl _⟩
    · rintro ⟨j, hj, hr⟩
      have : j = 0 := Nat.le_zero.mp hj
      subst this
      exact (reachesIn_zero hr).symm
  | succ n ih =>
    intro t
    show t ∈ (ball adj o n ++ (ball adj o n).flatMap adj).dedup ↔ _
    rw [List.mem_dedup, List.mem_append, List.mem_flatMap]
    constructor
    · rintro (hb | ⟨y, hy, hadj⟩)
      · obtain ⟨j, hj, hr⟩ := (ih t).mp hb
        exact ⟨j, Nat.le_succ_of_le hj, hr⟩
      · obtain ⟨j, hj, hr⟩ := (ih y).mp hy
        exact ⟨j + 1, Nat.succ_le_succ hj, ReachesIn.step hr hadj⟩
    · rintro ⟨j, hj, hr⟩
      rcases Nat.lt_or_ge j (n + 1) with hlt | hge
      · exact Or.inl ((ih t).mpr ⟨j, Nat.lt_succ_iff.mp hlt, hr⟩)
      · have : j = n + 1 := le_antisymm hj hge
        subst this
        cases hr with
        | step hr' hadj =>
          exact Or.inr ⟨_, (ih _).mpr ⟨n, le_refl n, hr'⟩, hadj⟩

theorem shortestDistance_eq_zero_iff (adj : String → List String)
    (o t : String) (d : ℕ) :
    shortestDistance adj o t d = some 0 ↔ o = t := by
  constructor
  · intro h
    have hp := List.find?_some h
    simp only [decide_eq_true_eq, ball, List.mem_singleton] at hp
    exact hp.symm
  · rintro rfl
    unfold shortestDistance
    rw [List.range_succ_eq_map]
    exact List.find?_cons_of_pos _ (by simp [ball])

theorem shortestDistance_eq_none_iff (adj : String → List String)
    (o t : String) (d : ℕ) :
    shortestDistance adj o t d = none ↔
      ¬ ∃ k ≤ d, ReachesIn adj o t k := by
  unfold shortestDistance
  rw [List.find?_eq_none]
  constructor
  · rintro h ⟨k, hk, hr⟩
    exact h k (List.mem_range.mpr (Nat.lt_succ_of_le hk))
      (by simp only [decide_eq_true_eq]
          exact (mem_ball_iff adj o k t).mpr ⟨k, le_refl k, hr⟩)
  · intro h k hk
    simp only [List.mem_range] at hk
    simp only [decide_eq_true_eq]
    intro hmem
    obtain ⟨j, hj, hr⟩ := (mem_ball_iff adj o k t).mp hmem
    exact h ⟨j, by omega, hr⟩

theorem shortestDistance_direct (adj : String → List String)
    {o t : String} {d : ℕ} (hne : o ≠ t) (he : t ∈ adj o) (hd : 1 ≤ d) :
    shortestDistance adj o t d = some 1 := by
  obtain ⟨d', rfl⟩ : ∃ d', d = d' + 1 := ⟨d - 1, by omega⟩
  unfold shortestDistance
  rw [List.range_succ_eq_map, List.range_succ_eq_map, List.map_cons]
  rw [List.find?_cons_of_neg _
    (by simp only [decide_eq_true_eq, ball, List.mem_singleton]
        exact fun h => hne h.symm)]
  rw [List.find?_cons_of_pos _
    (by simp only [decide_eq_true_eq, ball, List.mem_dedup, List.mem_append]
        exact Or.inr (by simpa [ball] using he))]

theorem distScore_le (d : Option ℕ) : distScore d ≤ 100 := by
  cases d with
  | none => simp [distScore]
  | some n =>
    simp only [distScore]
    split_ifs <;> norm_num

theorem instProximity_le (x y : Option Institution) :
    instProximity x y ≤ 100 := by
  cases x with
  | none => simp [instProximity]
  | some a =>
    cases y with
    | none => simp [instProximity]
    | some b =>
      simp only [instProximity]
      split_ifs <;> norm_num

theorem recencyAlign_mem (x y : Option ℤ) :
    0 ≤ recencyAlign x y ∧ recencyAlign x y ≤ 100 := by
  cases x with
  | none => simp [recencyAlign]
  | some yu =>
    cases y with
    | none => simp [recencyAlign]
    | some yt =>
      simp only [recencyAlign]
      constructor
      · exact le_max_left 0 _
      · have habs : (0 : ℚ) ≤ |(yu : ℚ) - (yt : ℚ)| := abs_nonneg _
        rw [max_le_iff]
        constructor <;> nlinarith

theorem weighted_sum_mem (u t : ResearchProfile) :
    0 ≤ 0.40 * (topicScore u.concept_counts t.concept_counts : ℚ) +
        0.30 * (coauthorScore u t : ℚ) +
        0.20 * (instProximity u.institution t.institution : ℚ) +
        0.10 * recencyAlign u.median_year t.median_year ∧
      0.40 * (topicScore u.concept_counts t.concept_counts : ℚ) +
        0.30 * (coauthorScore u t : ℚ) +
        0.20 * (instProximity u.institution t.institution : ℚ) +
        0.10 * recencyAlign u.median_year t.median_year ≤ 100 := by
  obtain ⟨ht0, ht1⟩ := topicScore_mem u.concept_counts t.concept_counts
  have hc1 : coauthorScore u t ≤ 100 := distScore_le _
  have hi1 : instProximity u.institution t.institution ≤ 100 :=
    instProximity_le _ _
  obtain ⟨hr0, hr1⟩ := recencyAlign_mem u.median_year t.median_year
  have ht0' : (0 : ℚ) ≤ (topicScore u.concept_counts t.concept_counts : ℚ) := by
    exact_mod_cast ht0
  have ht1' : (topicScore u.concept_counts t.concept_counts : ℚ) ≤ 100 := by
    exact_mod_cast ht1
  have hc0' : (0 : ℚ) ≤ (coauthorScore u t : ℚ) := by positivity
  have hc1' : (coauthorScore u t : ℚ) ≤ 100 := by exact_mod_cast hc1
  have hi0' : (0 : ℚ) ≤ (instProximity u.institution t.institution : ℚ) := by
    positivity
  have hi1' : (instProximity u.institution t.institution : ℚ) ≤ 100 := by
    exact_mod_cast hi1
  constructor <;> nlinarith

theorem round_weighted_mem (u t : ResearchProfile) :
    0 ≤ round (
        0.40 * (topicScore u.concept_counts t.concept_counts : ℚ) +
        0.30 * (coauthorScore u t : ℚ) +
        0.20 * (instProximity u.institution t.institution : ℚ) +
        0.10 * recencyAlign u.median_year t.median_year) ∧
      round (
        0.40 * (topicScore u.concept_counts t.concept_counts : ℚ) +
        0.30 * (coauthorScore u t : ℚ) +
        0.20 * (instProximity u.institution t.institution : ℚ) +
        0.10 * recencyAlign u.median_year t.median_year) ≤ 100 := by
  obtain ⟨h0, h1⟩ := weighted_sum_mem u t
  constructor
  · have := round_le_round h0
    rwa [round_zero] at this
  · have := round_le_round h1
    rwa [show ((100 : ℚ)) = ((100 : ℤ) : ℚ) by norm_num, round_intCast] at this

theorem overallScore_eq_round (u t : ResearchProfile) :
    overallScore u t = round (
      0.40 * (topicScore u.concept_counts t.concept_counts : ℚ) +
      0.30 * (coauthorScore u t : ℚ) +
      0.20 * (instProximity u.institution t.institution : ℚ) +
      0.10 * recencyAlign u.median_year t.median_year) := by
  obtain ⟨h0, h1⟩ := round_weighted_mem u t
  unfold overallScore
  rw [max_eq_right h0, min_eq_right h1]

theorem overallScore_mem (u t : ResearchProfile) :
    0 ≤ overallScore u t ∧ overallScore u t ≤ 100 := by
  obtain ⟨h0, h1⟩ := round_weighted_mem u t
  rw [overallScore_eq_round]
  exact ⟨h0, h1⟩

theorem acount_nil (m : String) : acount [] m = 0 := rfl

theorem acount_cons (p : String × ℕ) (l : List (String × ℕ)) (m : String) :
    acount (p :: l) m = (if p.1 = m then p.2 else 0) + acount l m := by
  simp only [acount, List.filter_cons, decide_eq_true_eq]
  split_ifs with h
  · simp
  · simp

theorem acount_bump (l : List (String × ℕ)) (n : String) (c : ℕ)
    (m : String) :
    acount (bump l n c) m = acount l m + (if n = m then c else 0) := by
  induction l with
  | nil =>
    simp only [bump, acount_cons, acount_nil]
    split_ifs <;> omega
  | cons p rest ih =>
    obtain ⟨k, v⟩ := p
    simp only [bump]
    by_cases hk : k = n
    · rw [if_pos hk, acount_cons, acount_cons]
      subst hk
      split_ifs <;> omega
    · rw [if_neg hk, acount_cons, acount_cons, ih]
      omega

theorem bump_keys (l : List (String × ℕ)) (n : String) (c : ℕ) :
    (bump l n c).map (·.1) =
      if n ∈ l.map (·.1) then l.map (·.1) else l.map (·.1) ++ [n] := by
  induction l with
  | nil => simp [bump]
  | cons p rest ih =>
    obtain ⟨k, v⟩ := p
    simp only [bump]
    by_cases hk : k = n
    · subst hk
      simp
    · rw [if_neg hk, List.map_cons, List.map_cons, ih]
      by_cases hn : n ∈ rest.map (·.1) <;>
        simp [hn, Ne.symm hk]

theorem bump_keys_nodup (l : List (String × ℕ)) (n : String) (c : ℕ)
    (h : (l.map (·.1)).Nodup) : ((bump l n c).map (·.1)).Nodup := by
  rw [bump_keys]
  split_ifs with hn
  · exact h
  · rw [List.nodup_append]
    refine ⟨h, List.nodup_singleton n, ?_⟩
    intro x hx hx'
    rw [List.mem_singleton] at hx'
    subst hx'
    exact hn hx

theorem mem_keys_bump {l : List (String × ℕ)} {n : String} {c : ℕ}
    {x : String} (h : x ∈ (bump l n c).map (·.1)) :
    x ∈ l.map (·.1) ∨ x = n := by
  rw [bump_keys] at h
  split_ifs at h with hn
  · exact Or.inl h
  · simpa using h

theorem acount_instStep (acc : List (String × ℕ)) (i : InstRecord)
    {m : String} (hm : m ≠ "") :
    acount (instStep acc i) m = acount acc m + recContrib i m := by
  cases hd : i.display_name with
  | none => simp [instStep, recContrib, hd]
  | some name =>
    by_cases hname : name = ""
    · subst hname
      have hne : ¬ ((some "" : Option String) = some m) := by
        simpa using fun h => hm h.symm
      simp [instStep, recContrib, hd, hne]
    · simp only [instStep, recContrib, hd, if_neg hname]
      rw [acount_bump]
      by_cases hnm : name = m
      · subst hnm
        simp
      · have hne : ¬ ((some name : Option String) = some m) := by
          simpa using hnm
        rw [if_neg hnm, if_neg hne]

theorem instStep_keys_nodup (acc : List (String × ℕ)) (i : InstRecord)
    (h : (acc.map (·.1)).Nodup) : ((instStep acc i).map (·.1)).Nodup := by
  cases hd : i.display_name with
  | none => simpa [instStep, hd] using h
  | some name =>
    by_cases hname : name = ""
    · simpa [instStep, hd, hname] using h
    · simp only [instStep, hd, if_neg hname]
      exact bump_keys_nodup _ _ _ h

theorem instStep_keys_ne (acc : List (String × ℕ)) (i : InstRecord)
    (h : ∀ x ∈ acc.map (·.1), x ≠ "") :
    ∀ x ∈ (instStep acc i).map (·.1), x ≠ "" := by
  cases hd : i.display_name with
  | none => simpa [instStep, hd] using h
  | some name =>
    by_cases hname : name = ""
    · simpa [instStep, hd, hname] using h
    · simp only [instStep, hd, if_neg hname]
      intro x hx
      rcases mem_keys_bump hx with hx' | rfl
      · exact h x hx'
      · exact hname

theorem acount_foldl_records (is : List InstRecord) {m : String}
    (hm : m ≠ "") :
    ∀ acc : List (String × ℕ),
      acount (is.foldl instStep acc) m =
        acount acc m + (is.map (fun i => recContrib i m)).sum := by
  induction is with
  | nil => intro acc; simp
  | cons i rest ih =>
    intro acc
    simp only [List.foldl_cons, List.map_cons, List.sum_cons]
    rw [ih (instStep acc i), acount_instStep acc i hm]
    omega

theorem foldl_records_keys_nodup (is : List InstRecord) :
    ∀ acc : List (String × ℕ), (acc.map (·.1)).Nodup →
      ((is.foldl instStep acc).map (·.1)).Nodup := by
  induction is with
  | nil => intro acc h; exact h
  | cons i rest ih =>
    intro acc h
    exact ih (instStep acc i) (instStep_keys_nodup acc i h)

theorem foldl_records_keys_ne (is : List InstRecord) :
    ∀ acc : List (String × ℕ), (∀ x ∈ acc.map (·.1), x ≠ "") →
      ∀ x ∈ (is.foldl instStep acc).map (·.1), x ≠ "" := by
  induction is with
  | nil => intro acc h; exact h
  | cons i rest ih =>
    intro acc h
    exact ih (instStep acc i) (instStep_keys_ne acc i h)

theorem sum_contrib (m : String) (is : List InstRecord) :
    ((is.filter (fun i => decide (i.display_name = some m))).map
      (fun i => i.works_count.getD 0)).sum =
    (is.map (fun i => recContrib i m)).sum := by
  induction is with
  | nil => simp
  | cons i rest ih =>
    by_cases hdisp : i.display_name = some m
    · simp [List.filter_cons, hdisp, recContrib, ih]
    · simp [List.filter_cons, hdisp, recContrib, ih]

theorem acount_allInst_aux (m : String) (hm : m ≠ "") :
    ∀ (rs : List InstResponse) (acc : List (String × ℕ)),
      acount (rs.foldl (fun acc res =>
        if res.ok then res.institutions.foldl instStep acc else acc) acc) m =
      acount acc m +
        (((rs.filter (·.ok)).flatMap (·.institutions)).map
          (fun i => recContrib i m)).sum := by
  intro rs
  induction rs with
  | nil => intro acc; simp
  | cons r rest ih =>
    intro acc
    cases hok : r.ok with
    | true =>
      simp only [List.foldl_cons, List.filter_cons, hok, if_true,
        decide_eq_true_eq]
      rw [ih (r.institutions.foldl instStep acc),
        acount_foldl_records r.institutions hm acc]
      simp only [if_pos trivial, List.flatMap_cons, List.map_append,
        List.sum_append]
      omega
    | false =>
      simp only [List.foldl_cons, List.filter_cons, hok]
      exact ih acc

theorem acount_allInst (rs : List InstResponse) {m : String} (hm : m ≠ "") :
    acount (allInst rs) m = totalCount rs m := by
  have h := acount_allInst_aux m hm rs []
  rw [acount_nil, Nat.zero_add] at h
  unfold totalCount
  rw [sum_contrib]
  exact h

theorem allInst_keys_nodup (rs : List InstResponse) :
    ((allInst rs).map (·.1)).Nodup := by
  suffices h : ∀ (rs : List InstResponse) (acc : List (String × ℕ)),
      (acc.map (·.1)).Nodup →
      ((rs.foldl (fun acc res =>
        if res.ok then res.institutions.foldl instStep acc else acc)
        acc).map (·.1)).Nodup by
    exact h rs [] (by simp)
  intro rs
  induction rs with
  | nil => intro acc h; exact h
  | cons r rest ih =>
    intro acc h
    cases hok : r.ok with
    | true =>
      simp only [List.foldl_cons, hok, if_true]
      exact ih _ (foldl_records_keys_nodup r.institutions acc h)
    | false =>
      simp only [List.foldl_cons, hok]
      exact ih _ h

theorem allInst_keys_ne (rs : List InstResponse) :
    ∀ x ∈ (allInst rs).map (·.1), x ≠ "" := by
  suffices h : ∀ (rs : List InstResponse) (acc : List (String × ℕ)),
      (∀ x ∈ acc.map (·.1), x ≠ "") →
      ∀ x ∈ ((rs.foldl (fun acc res =>
        if res.ok then res.institutions.foldl instStep acc else acc)
        acc).map (·.1)), x ≠ "" by
    exact h rs [] (by simp)
  intro rs
  induction rs with
  | nil => intro acc h; exact h
  | cons r rest ih =>
    intro acc h
    cases hok : r.ok with
    | true =>
      simp only [List.foldl_cons, hok, if_true]
      exact ih _ (foldl_records_keys_ne r.institutions acc h)
    | false =>
      simp only [List.foldl_cons, hok]
      exact ih _ h

theorem assoc_value_eq_acount {l : List (String × ℕ)} {p : String × ℕ}
    (hnd : (l.map (·.1)).Nodup) (hp : p ∈ l) : p.2 = acount l p.1 := by
  induction l with
  | nil => cases hp
  | cons q rest ih =>
    rw [List.map_cons, List.nodup_cons] at hnd
    rcases List.mem_cons.mp hp with rfl | hp'
    · rw [acount_cons, if_pos rfl]
      have hz : acount rest p.1 = 0 := by
        unfold acount
        have hfil : rest.filter (fun q => decide (q.1 = p.1)) = [] := by
          rw [List.filter_eq_nil_iff]
          intro q hq
          simp only [decide_eq_true_eq]
          intro hq1
          exact hnd.1 (hq1 ▸ List.mem_map_of_mem (·.1) hq)
        simp [hfil]
      omega
    · rw [acount_cons, ih hnd.2 hp']
      have hne : q.1 ≠ p.1 := by
        intro hq1
        exact hnd.1 (hq1 ▸ List.mem_map_of_mem (·.1) hp')
      simp [hne]
theorem dot_scenario : dot vML_CV vML_NLP = 80 := by
  unfold dot
  rw [show vML_CV.support ∪ vML_NLP.support =
    insert "ML" (insert "CV" ({"NLP"} : Finset String)) from by decide]
  rw [Finset.sum_insert (by decide), Finset.sum_insert (by decide),
    Finset.sum_singleton]
  simp [vML_CV, vML_NLP]
  norm_num

theorem normSq_vML_CV : normSq vML_CV = 125 := by
  unfold normSq
  rw [show vML_CV.support = insert "ML" ({"CV"} : Finset String) from rfl]
  rw [Finset.sum_insert (by decide), Finset.sum_singleton]
  simp [vML_CV]
  norm_num

theorem normSq_vML_NLP : normSq vML_NLP = 80 := by
  unfold normSq
  rw [show vML_NLP.support = insert "ML" ({"NLP"} : Finset String) from rfl]
  rw [Finset.sum_insert (by decide), Finset.sum_singleton]
  simp [vML_NLP]
  norm_num

theorem cosine_scenario : cosine vML_CV vML_NLP = 4 / 5 := by
  unfold cosine
  rw [normSq_vML_CV, normSq_vML_NLP, dot_scenario, if_neg (by norm_num)]
  have h1 : Real.sqrt ((125 : ℚ) : ℝ) * Real.sqrt ((80 : ℚ) : ℝ) = 100 := by
    rw [show (((125 : ℚ)) : ℝ) = 125 by norm_num,
      show (((80 : ℚ)) : ℝ) = 80 by norm_num,
      ← Real.sqrt_mul (by norm_num : (0 : ℝ) ≤ 125),
      show (125 : ℝ) * 80 = 100 ^ 2 by norm_num]
    exact Real.sqrt_sq (by norm_num)
  rw [h1]
  norm_num

theorem topicScore_scenario : topicScore vML_CV vML_NLP = 80 := by
  unfold topicScore
  rw [cosine_scenario,
    show clamp01 ((4 : ℝ) / 5) = 4 / 5 from by
      unfold clamp01
      rw [min_eq_right (by norm_num), max_eq_right (by norm_num)],
    show ((4 : ℝ) / 5) * 100 = ((80 : ℤ) : ℝ) by norm_num]
  exact round_intCast 80

/-- C1: for every pair of well-formed research profiles (profiles with
empty works included), the overall compatibility score equals
`round(0.40·topic + 0.30·coauthor + 0.20·institution + 0.10·recency)`
clamped to `[0,100]`, and is therefore always an integer in `[0,100]`. -/
theorem C1_overall_score (u t : ResearchProfile) :
    (computeBreakdown u t).overall =
      min 100 (max 0 (round (
        0.40 * (topicScore u.concept_counts t.concept_counts : ℚ) +
        0.30 * (coauthorScore u t : ℚ) +
        0.20 * (instProximity u.institution t.institution : ℚ) +
        0.10 * recencyAlign u.median_year t.median_year))) ∧
    0 ≤ (computeBreakdown u t).overall ∧
    (computeBreakdown u t).overall ≤ 100 :=
  ⟨rfl, (overallScore_mem u t).1, (overallScore_mem u t).2⟩

/-- C2: topic cosine similarity is symmetric; `similarity(A,A) = 1` for
every non-zero vector `A`; the similarity is `dot/(‖A‖·‖B‖)` when both
vectors are non-zero; and it is `0` whenever either vector is all-zero. -/
theorem C2_cosine_properties :
    (∀ a b : SparseVec, cosine a b = cosine b a) ∧
    (∀ a : SparseVec, (∃ k, a.val k ≠ 0) → cosine a a = 1) ∧
    (∀ a b : SparseVec, normSq a ≠ 0 → normSq b ≠ 0 →
      cosine a b = (dot a b : ℝ) /
        (Real.sqrt (normSq a) * Real.sqrt (normSq b))) ∧
    (∀ a b : SparseVec, ((∀ k, a.val k = 0) ∨ (∀ k, b.val k = 0)) →
      cosine a b = 0) := by
  refine ⟨cosine_comm, ?_, ?_, cosine_zero_of_allZero⟩
  · rintro a ⟨k, hk⟩
    refine cosine_self a fun h0 => hk ((normSq_eq_zero_iff a).mp h0 k)
  · intro a b ha hb
    unfold cosine
    rw [if_neg (by tauto)]

/-- Witness for C2 at the concrete scenario vectors. -/
theorem C2_cosine_properties_witness :
    cosine vML_CV vML_CV = 1 ∧
    cosine vML_CV vML_NLP = cosine vML_NLP vML_CV :=
  ⟨C2_cosine_properties.2.1 vML_CV ⟨"ML", by simp [vML_CV]⟩,
    C2_cosine_properties.1 vML_CV vML_NLP⟩

/-- C3 counterexample: for `{ML:10, CV:5}` against `{ML:8, NLP:4}` the
cosine similarity is exactly `0.8` and the topic sub-score is `80`, which
is not within `±1` of the claimed `70`. -/
theorem C3_topic_scenario_counterexample :
    cosine vML_CV vML_NLP = 4 / 5 ∧
    topicScore vML_CV vML_NLP = 80 ∧
    ¬(70 - 1 ≤ topicScore vML_CV vML_NLP ∧
      topicScore vML_CV vML_NLP ≤ 70 + 1) := by
  refine ⟨cosine_scenario, topicScore_scenario, ?_⟩
  rw [topicScore_scenario]
  omega

/-- C3 amended: for those inputs the overlap is `{ML}`, the cosine
similarity is `0.80`, and the topic-similarity sub-score is `80`. -/
theorem C3_topic_scenario_amended :
    vML_CV.support ∩ vML_NLP.support = {"ML"} ∧
    cosine vML_CV vML_NLP = 4 / 5 ∧
    topicScore vML_CV vML_NLP = 80 :=
  ⟨by decide, cosine_scenario, topicScore_scenario⟩

/-- C4: over any merged co-author graph, the BFS distance is `some 0` iff
origin equals target; it is `none` iff the target is unreached within
`max_depth` hops; and two distinct authors sharing a direct co-authorship
edge are at distance `some 1`. -/
theorem C4_shortest_distance (ga gb : String → List String)
    (o t : String) (d : ℕ) :
    (shortestDistance (mergeAdj ga gb) o t d = some 0 ↔ o = t) ∧
    (shortestDistance (mergeAdj ga gb) o t d = none ↔
      ¬ ∃ k ≤ d, ReachesIn (mergeAdj ga gb) o t k) ∧
    (o ≠ t → t ∈ mergeAdj ga gb o → 1 ≤ d →
      shortestDistance (mergeAdj ga gb) o t d = some 1) :=
  ⟨shortestDistance_eq_zero_iff _ o t d,
    shortestDistance_eq_none_iff _ o t d,
    fun hne he hd => shortestDistance_direct _ hne he hd⟩

/-- Witness for C4: in a concrete merged graph the direct co-authors `a`
and `b` are at BFS distance 1. -/
theorem C4_shortest_distance_witness :
    shortestDistance (mergeAdj gAB gEmpty) "a" "b" 6 = some 1 :=
  (C4_shortest_distance gAB gEmpty "a" "b" 6).2.2 (by decide)
    (by simp [mergeAdj, gAB, gEmpty]) (by norm_num)

/-- C5: institution proximity is decided by the first matching rule — same
id → 100; else same country code (both present) → 80; else same type (both
present) → 60; else both institutions present → 40; else (either
institution missing) → 0. -/
theorem C5_institution_proximity :
    (∀ x y : Option String,
      sameOpt x y = true ↔ ∃ c, x = some c ∧ y = some c) ∧
    (∀ x : Option Institution,
      instProximity none x = 0 ∧ instProximity x none = 0) ∧
    (∀ a b : Institution,
      (a.id = b.id → instProximity (some a) (some b) = 100) ∧
      (a.id ≠ b.id → sameOpt a.country_code b.country_code = true →
        instProximity (some a) (some b) = 80) ∧
      (a.id ≠ b.id → sameOpt a.country_code b.country_code = false →
        sameOpt a.itype b.itype = true →
        instProximity (some a) (some b) = 60) ∧
      (a.id ≠ b.id → sameOpt a.country_code b.country_code = false →
        sameOpt a.itype b.itype = false →
        instProximity (some a) (some b) = 40)) := by
  refine ⟨?_, ?_, ?_⟩
  · intro x y
    constructor
    · intro h
      cases x with
      | none => simp [sameOpt] at h
      | some a =>
        cases y with
        | none => simp [sameOpt] at h
        | some b =>
          simp only [sameOpt, decide_eq_true_eq] at h
          exact ⟨a, rfl, by rw [h]⟩
    · rintro ⟨c, rfl, rfl⟩
      simp [sameOpt]
  · intro x
    cases x <;> simp [instProximity]
  · intro a b
    refine ⟨fun h1 => by simp [instProximity, h1],
      fun h1 h2 => by simp [instProximity, h1, h2],
      fun h1 h2 h3 => by simp [instProximity, h1, h2, h3],
      fun h1 h2 h3 => by simp [instProximity, h1, h2, h3]⟩

/-- Witness for C5: two distinct institutions in the same country score
80, and a missing institution scores 0. -/
theorem C5_institution_proximity_witness :
    instProximity (some instA) (some instB) = 80 ∧
    instProximity none (some instA) = 0 :=
  ⟨(C5_institution_proximity.2.2 instA instB).2.1 (by decide) (by decide),
    (C5_institution_proximity.2.1 (some instA)).1⟩

/-- C6: when both medians are defined the recency alignment equals
`max(0, 100 − 12.5·|median_user − median_target|)` — equal medians give
100, a 4-year gap gives 50, gaps of 8 or more years give 0 — and the score
is 0 when either median is undefined. -/
theorem C6_recency_alignment :
    (∀ yu yt : ℤ, recencyAlign (some yu) (some yt) =
      max 0 (100 - 12.5 * |(yu : ℚ) - (yt : ℚ)|)) ∧
    (∀ yu : ℤ, recencyAlign (some yu) (some yu) = 100) ∧
    (∀ yu yt : ℤ, |yu - yt| = 4 → recencyAlign (some yu) (some yt) = 50) ∧
    (∀ yu yt : ℤ, 8 ≤ |yu - yt| → recencyAlign (some yu) (some yt) = 0) ∧
    (∀ y : Option ℤ, recencyAlign none y = 0 ∧ recencyAlign y none = 0) := by
  refine ⟨fun yu yt => rfl, ?_, ?_, ?_, ?_⟩
  · intro yu
    show max 0 (100 - 12.5 * |(yu : ℚ) - (yu : ℚ)|) = 100
    rw [sub_self, abs_zero, mul_zero, sub_zero]
    norm_num
  · intro yu yt h
    have habs : |(yu : ℚ) - (yt : ℚ)| = 4 := by
      rw [show (yu : ℚ) - (yt : ℚ) = ((yu - yt : ℤ) : ℚ) by push_cast; ring,
        ← Int.cast_abs, h]
      norm_num
    show max 0 (100 - 12.5 * |(yu : ℚ) - (yt : ℚ)|) = 50
    rw [habs, show (100 : ℚ) - 12.5 * 4 = 50 by norm_num,
      max_eq_right (by norm_num : (0 : ℚ) ≤ 50)]
  · intro yu yt h
    have habs : (8 : ℚ) ≤ |(yu : ℚ) - (yt : ℚ)| := by
      rw [show (yu : ℚ) - (yt : ℚ) = ((yu - yt : ℤ) : ℚ) by push_cast; ring,
        ← Int.cast_abs]
      exact_mod_cast h
    show max 0 (100 - 12.5 * |(yu : ℚ) - (yt : ℚ)|) = 0
    rw [max_eq_left (by nlinarith)]
  · intro y
    cases y <;> simp [recencyAlign]

/-- Witness for C6: the spec scenario — medians 2020 and 2016 give a
recency alignment of 50. -/
theorem C6_recency_alignment_witness :
    recencyAlign (some 2020) (some 2016) = 50 :=
  C6_recency_alignment.2.2.1 2020 2016 (by decide)

/-- C7: growth equals `recent − previous`; the growth rate is 0 when the
recent count is 0, and otherwise divides by `previous` when positive, else
by `recent` — a divisor that is never zero. -/
theorem C7_growth_rate :
    (∀ r p : ℕ, growth r p = (r : ℤ) - (p : ℤ)) ∧
    (∀ r p : ℕ, r = 0 → growthRate r p = 0) ∧
    (∀ r p : ℕ, r ≠ 0 →
      (if 0 < p then (p : ℚ) else (r : ℚ)) ≠ 0 ∧
      growthRate r p = ((r : ℚ) - (p : ℚ)) /
        (if 0 < p then (p : ℚ) else (r : ℚ))) := by
  refine ⟨fun r p => rfl, fun r p h => by simp [growthRate, h], ?_⟩
  intro r p hr
  constructor
  · split_ifs with hp
    · have : (0 : ℚ) < (p : ℚ) := by exact_mod_cast hp
      exact this.ne'
    · exact Nat.cast_ne_zero.mpr hr
  · simp [growthRate, hr]

/-- Witness for C7: a zero recent count yields rate 0, and for
`recent = 6`, `previous = 4` the divisor is the non-zero `4`. -/
theorem C7_growth_rate_witness :
    growthRate 0 7 = 0 ∧
    ((if 0 < (4 : ℕ) then ((4 : ℕ) : ℚ) else ((6 : ℕ) : ℚ)) ≠ 0 ∧
      growthRate 6 4 = (((6 : ℕ) : ℚ) - ((4 : ℕ) : ℚ)) /
        (if 0 < (4 : ℕ) then ((4 : ℕ) : ℚ) else ((6 : ℕ) : ℚ))) :=
  ⟨C7_growth_rate.2.1 0 7 rfl, C7_growth_rate.2.2 6 4 (by norm_num)⟩

/-- C8: the Fallback Resolver is total — it hands back the live record
when the call succeeds and the offline substitute otherwise (collections
are lists, an empty sequence at worst) — and under the always-unavailable
Record Source a full compatibility computation still returns a breakdown
whose overall score is a defined integer in `[0,100]`. -/
theorem C8_fallback_resilience :
    (∀ (c : OfflineCorpus) (src : RecordSource) (id : String)
      (s : AuthorSummary), src.authorSummary id = some s →
        resolveAuthorSummary c src id = s) ∧
    (∀ (c : OfflineCorpus) (src : RecordSource) (id : String),
      src.authorSummary id = none →
        resolveAuthorSummary c src id = c.authorSummary id) ∧
    (∀ (c : OfflineCorpus) (src : RecordSource) (id : String)
      (ws : List WorkRecord), src.authorWorks id = some ws →
        resolveAuthorWorks c src id = ws) ∧
    (∀ (c : OfflineCorpus) (src : RecordSource) (id : String),
      src.authorWorks id = none →
        resolveAuthorWorks c src id = c.authorWorks id) ∧
    (∀ (c : OfflineCorpus) (u t : String),
      0 ≤ (computeMatch c allUnavailable u t).1.overall ∧
      (computeMatch c allUnavailable u t).1.overall ≤ 100) := by
  refine ⟨?_, ?_, ?_, ?_, ?_⟩
  · intro c src id s h
    simp [resolveAuthorSummary, h]
  · intro c src id h
    simp [resolveAuthorSummary, h]
  · intro c src id ws h
    simp [resolveAuthorWorks, h]
  · intro c src id h
    simp [resolveAuthorWorks, h]
  · intro c u t
    exact overallScore_mem _ _

/-- Witness for C8: with a live source the resolver returns the live
summary; with the unavailable source it returns the offline summary and
the computation's overall score is non-negative. -/
theorem C8_fallback_resilience_witness :
    resolveAuthorSummary corpus0 srcLive "A1" =
      ⟨"A1", "Live Author", 1, 2, none⟩ ∧
    resolveAuthorSummary corpus0 allUnavailable "A1" =
      corpus0.authorSummary "A1" ∧
    0 ≤ (computeMatch corpus0 allUnavailable "A1" "A2").1.overall :=
  ⟨C8_fallback_resilience.1 corpus0 srcLive "A1" _ rfl,
    C8_fallback_resilience.2.1 corpus0 allUnavailable "A1" rfl,
    (C8_fallback_resilience.2.2.2.2 corpus0 "A1" "A2").1⟩

/-- C9: the Dashboard top-institutions aggregation yields at most five
entries; each entry's count is the sum of `works_count` (missing counted
as 0) over the ok-response records sharing its `display_name` (records
without a name having been skipped); and the list is sorted by
non-increasing aggregated count. -/
theorem C9_top_institutions (rs : List InstResponse) :
    (fetchInstitutionsTop rs).length ≤ 5 ∧
    (∀ p ∈ fetchInstitutionsTop rs, p.2 = totalCount rs p.1) ∧
    (fetchInstitutionsTop rs).Sorted (fun a b => b.2 ≤ a.2) := by
  refine ⟨?_, ?_, ?_⟩
  · exact List.length_take_le 5
      ((allInst rs).mergeSort fun a b => decide (b.2 ≤ a.2))
  · intro p hp
    have hp1 : p ∈ (allInst rs).mergeSort (fun a b => decide (b.2 ≤ a.2)) :=
      (List.take_sublist 5 _).subset hp
    have hp2 : p ∈ allInst rs :=
      (List.mergeSort_perm (allInst rs) _).mem_iff.mp hp1
    have hne : p.1 ≠ "" :=
      allInst_keys_ne rs p.1 (List.mem_map_of_mem (·.1) hp2)
    rw [assoc_value_eq_acount (allInst_keys_nodup rs) hp2,
      acount_allInst rs hne]
  · have hs : ((allInst rs).mergeSort (fun a b => decide (b.2 ≤ a.2))).Pairwise
        (fun a b => decide (b.2 ≤ a.2) = true) :=
      List.sorted_mergeSort
        (fun a b c h1 h2 => by
          simp only [decide_eq_true_eq] at h1 h2 ⊢
          omega)
        (fun a b => by
          simp only [Bool.or_eq_true, decide_eq_true_eq]
          omega)
        (allInst rs)
    have hs' : ((allInst rs).mergeSort (fun a b => decide (b.2 ≤ a.2))).Pairwise
        (fun a b : String × ℕ => b.2 ≤ a.2) :=
      hs.imp fun h => by simpa using h
    exact hs'.sublist (List.take_sublist 5 _)

/-- Witness for C9 at a concrete response list: two records named `X`
merge into one entry with the summed count, ahead of `Y`. -/
theorem C9_top_institutions_witness :
    (fetchInstitutionsTop
        [⟨true, [⟨some "X", some 3⟩, ⟨some "Y", some 5⟩]⟩,
         ⟨true, [⟨some "X", some 4⟩, ⟨none, some 9⟩]⟩]).length ≤ 5 ∧
    ∀ p ∈ fetchInstitutionsTop
        [⟨true, [⟨some "X", some 3⟩, ⟨some "Y", some 5⟩]⟩,
         ⟨true, [⟨some "X", some 4⟩, ⟨none, some 9⟩]⟩],
      p.2 = totalCount
        [⟨true, [⟨some "X", some 3⟩, ⟨some "Y", some 5⟩]⟩,
         ⟨true, [⟨some "X", some 4⟩, ⟨none, some 9⟩]⟩] p.1 :=
  ⟨(C9_top_institutions _).1, (C9_top_institutions _).2.1⟩

/-- C10: the gauge's two dataset values are `overall` and `100 − overall`
and always sum to exactly 100, where `overall` collapses to 0 when the
navigation state or breakdown is absent or `breakdown.overall` is null or
0 — so a missing breakdown and a genuine overall of 0 give an identical 0%
gauge. -/
theorem C10_gauge (st : Option NavState) :
    gaugeData st = [gaugeOverall st, 100 - gaugeOverall st] ∧
    (gaugeData st).sum = 100 ∧
    (∀ ns : NavState, st = some ns → ns.breakdown = none →
      gaugeData st = gaugeData none) ∧
    (∀ (ns : NavState) (b : BreakdownPayload), st = some ns →
      ns.breakdown = some b → (b.overall = none ∨ b.overall = some 0) →
      gaugeData st = gaugeData none) := by
  refine ⟨rfl, ?_, ?_, ?_⟩
  · simp only [gaugeData, List.sum_cons, List.sum_nil]
    omega
  · rintro ns rfl hb
    simp [gaugeData, gaugeOverall, hb]
  · rintro ns b rfl hb hov
    rcases hov with h | h <;> simp [gaugeData, gaugeOverall, hb, h]

/-- Witness for C10: a state whose breakdown has `overall = 0` renders the
same gauge as a missing state. -/
theorem C10_gauge_witness :
    gaugeData (some ⟨some "T", some ⟨some 0, none, none, none, none⟩, none⟩) =
      gaugeData none :=
  (C10_gauge (some ⟨some "T", some ⟨some 0, none, none, none, none⟩, none⟩)).2.2.2
    ⟨some "T", some ⟨some 0, none, none, none, none⟩, none⟩
    ⟨some 0, none, none, none, none⟩ rfl rfl (Or.inr rfl)

end Collabnet
